import Mathlib

/-!
# Verification of the sophia_rs RDF/XML parser core

Shallow embedding of `src/sophia/src/parser/xml.rs`, `src/sophia/src/graph/sinks.rs`
and the parts of the term crate they use (`src/term/src/ns.rs`).

Modelling conventions:

* Rust panics (`panic!`, `unwrap()`, `expect(..)` on input-driven conditions) are
  modelled as `Except.error msg`.  The parser code under verification has **no**
  recoverable error path: every failure in `xml.rs` is a panic, so `Except.error`
  in this development always denotes a Rust panic, never a `Result::Err` value.
* Machine strings are Lean `String`s; byte-level operations of the source
  (`starts_with(b"xmlns")`, splitting at the first `:`) are modelled at the
  character level, which coincides with the byte level on the ASCII keys the
  parser compares against.
* XML events arrive pre-tokenised (the quick-xml reader is out of scope per the
  spec): an `Event` carries the element name and the already-unescaped attribute
  list, mirroring `BytesStart::name`/`attributes` and
  `unescape_and_decode_value`.  Attribute lists are assumed syntactically
  well-formed (distinct raw keys), which quick-xml's `with_checks(true)` enforces
  before the code under study runs.
* `Term` IRIs store the merged value `ns ++ suffix`: sophia's `Term` equality and
  `TermMatcher::matches` both compare merged IRI values, so the ns/suffix split
  (kept in Rust only for interning) is not observable by the parser logic.
* Rust's `HashMap<Term, Term>` of property attributes in `node_start` has an
  unspecified iteration order.  The embedding keeps the map as an
  insertion-ordered association list (`propInsert` mirrors `HashMap::insert`'s
  overwrite semantics) and threads an explicit iteration-order parameter
  `ho : HashOrder` through the state machine; an order is admissible for the
  real `HashMap` iff it is a permutation of the entries.
* IRI / language-tag syntactic validation lives in the term crate outside
  `src/` (`is_valid_iri_ref`, BCP-47 checks); no claim in scope depends on a
  syntactically invalid IRI, so validation is modelled as always succeeding.
-/

namespace Sophia

/-- Kind of an RDF literal: typed (datatype IRI) or language-tagged. -/
inductive LitKind where
  | typed (dt : String)
  | lang (tag : String)
deriving DecidableEq

/-- RDF term, as produced by the parser (variables are never produced).
IRIs store the merged value `ns ++ suffix` (see modelling conventions). -/
inductive Term where
  | iri (value : String)
  | bnode (label : String)
  | literal (lex : String) (kind : LitKind)
deriving DecidableEq

/-- An RDF triple `[subject, predicate, object]`. -/
abbrev Triple := Term × Term × Term

/-- An XML attribute with decoded key and value. -/
structure Attr where
  key : String
  value : String
deriving DecidableEq

-- ---------------------------------------------------------------------------
-- String helpers (character-level versions of the byte operations in xml.rs)
-- ---------------------------------------------------------------------------

/-- Character-level list analogue of Rust's `starts_with`. -/
def isPfxOf : List Char → List Char → Bool
  | [], _ => true
  | _ :: _, [] => false
  | a :: as, b :: bs => a = b && isPfxOf as bs

/-- `keyStarts s pat` models `s.starts_with(pat)` on attribute keys. -/
def keyStarts (s pat : String) : Bool := isPfxOf pat.data s.data

/-- Models `&a.key[6..]`: drop the first `n` characters. -/
def strDrop (s : String) (n : Nat) : String := String.mk (s.data.drop n)

/-- Auxiliary for `splitColon`: scan for the first `:`. -/
def splitColonAux : List Char → List Char → Option (String × String)
  | _, [] => none
  | acc, c :: cs =>
    if c = ':' then some (String.mk acc.reverse, String.mk cs)
    else splitColonAux (c :: acc) cs

/-- Split a string at its **first** colon, as
`curie_str.chars().position(|c| c == ':')` followed by slicing does in
`expand_curie_string`; `none` when there is no colon. -/
def splitColon (s : String) : Option (String × String) := splitColonAux [] s.data

-- ---------------------------------------------------------------------------
-- PrefixMapping (xml.rs lines 68-116)
-- ---------------------------------------------------------------------------

/-- The prefix table of a `PrefixMapping`: an association list modelling the
`HashMap<String, Namespace>`.  New bindings are prepended and lookup takes the
first hit, which realises `HashMap::insert`'s overwrite semantics (the map is
never iterated, so order is unobservable). -/
abbrev NsMap := List (String × String)

/-- Panic message of `add_prefix` for the reserved `_` prefix. -/
def reservedMsg : String := "reserved prefix"

/-- Panic message `"no such namespace"` of `expand_curie`. -/
def noSuchNsMsg : String := "no such namespace"

/-- Models `PrefixMapping::add_prefix` (xml.rs 88-97): binding `_` panics,
otherwise insert-or-overwrite.  The `Namespace::new(..).expect("FIXME")` IRI
validation is modelled as succeeding (see module docstring). -/
def addNsBinding (m : NsMap) (pfx v : String) : Except String NsMap :=
  if pfx = "_" then .error reservedMsg else .ok ((pfx, v) :: m)

/-- First-hit lookup in the prefix table. -/
def nsLookup (m : NsMap) (pfx : String) : Option String :=
  (m.find? (fun p => p.1 = pfx)).map (fun p => p.2)

/-- The mapping a fresh `PrefixMapping` carries
(`Default for PrefixMapping`, xml.rs 75-85): only the `xml` prefix. -/
def pmDefault : NsMap := [("xml", "http://www.w3.org/XML/1998/namespace#")]

/-- Models `PrefixMapping::expand_curie` (xml.rs 109-115): look the prefix up;
on a hit return the IRI `namespace ++ local` (what `Namespace::get` builds,
`src/term/src/ns.rs` 42-59); on a miss **panic** `"no such namespace"`. -/
def expandCurie (pm : NsMap) (pfx loc : String) : Except String Term :=
  match nsLookup pm pfx with
  | some ns => .ok (.iri (ns ++ loc))
  | none => .error noSuchNsMsg

/-- Models `PrefixMapping::expand_curie_string` (xml.rs 99-107): split at the
first colon and expand; with no colon **panic** `"missing prefix: <s>"`. -/
def expandCurieString (pm : NsMap) (s : String) : Except String Term :=
  match splitColon s with
  | some pr => expandCurie pm pr.1 pr.2
  | none => .error ("missing prefix: " ++ s)

-- ---------------------------------------------------------------------------
-- Vocabulary constants (src/term/src/ns.rs)
-- ---------------------------------------------------------------------------

/-- The `rdf:` namespace IRI (`src/term/src/ns.rs` 202-245). -/
def rdfNS : String := "http://www.w3.org/1999/02/22-rdf-syntax-ns#"

/-- `rdf:about`. -/
def rdfAbout : Term := .iri (rdfNS ++ "about")

/-- `rdf:ID`. -/
def rdfID : Term := .iri (rdfNS ++ "ID")

/-- `rdf:nodeID`. -/
def rdfNodeID : Term := .iri (rdfNS ++ "nodeID")

/-- `rdf:type` (spelled `rdf::type_` in the source). -/
def rdfType : Term := .iri (rdfNS ++ "type")

/-- `rdf:Description`. -/
def rdfDescription : Term := .iri (rdfNS ++ "Description")

/-- `rdf:datatype`. -/
def rdfDatatype : Term := .iri (rdfNS ++ "datatype")

/-- `rdf:resource`. -/
def rdfResource : Term := .iri (rdfNS ++ "resource")

/-- The datatype IRI string of `xsd:string`. -/
def xsdStringIri : String := "http://www.w3.org/2001/XMLSchema#string"

/-- `xsd:string` as a term (`xsd::string`). -/
def xsdString : Term := .iri xsdStringIri

/-- `xml:lang` as a term (`xml::lang`, namespace from ns.rs 327-337). -/
def xmlLang : Term := .iri "http://www.w3.org/XML/1998/namespace#lang"

-- ---------------------------------------------------------------------------
-- Term factory (term crate, not under src/)
-- ---------------------------------------------------------------------------

/-- Modelled from the spec: `TermFactory::iri` of the term crate (not under
src/) — "validate text as an IRI reference; on success return an IRI term with
empty suffix".  Validation is modelled as succeeding (module docstring). -/
def factoryIri (v : String) : Term := .iri v

/-- Modelled from the spec: `TermFactory::bnode` — wrap a blank-node label. -/
def factoryBnode (label : String) : Term := .bnode label

/-- Extract the merged IRI value of a term (used for datatype IRIs). -/
def Term.iriValue : Term → String
  | .iri v => v
  | .bnode l => l
  | .literal l _ => l

/-- Modelled from the spec: `TermFactory::literal_dt` — a typed literal. -/
def factoryLiteralDt (lex : String) (dt : Term) : Term :=
  .literal lex (.typed dt.iriValue)

/-- Character-level lowercase of a string. -/
def lowerStr (s : String) : String := String.mk (s.data.map Char.toLower)

/-- Modelled from the spec: `TermFactory::literal_lang` of the term crate (not
under src/) — "tag must match the BCP-47 grammar; comparison is
case-insensitive but the stored form is lowercased".  The grammar check is
modelled as succeeding; the lowercasing is kept. -/
def factoryLiteralLang (lex tag : String) : Term :=
  .literal lex (.lang (lowerStr tag))

-- ---------------------------------------------------------------------------
-- Parser state (xml.rs 120-166)
-- ---------------------------------------------------------------------------

/-- The `Text` accumulator of a predicate element (xml.rs 120-142). -/
structure Text where
  datatype : Option Term
  text : String
deriving DecidableEq

/-- The state of `XmlParser` (xml.rs 146-166).  Each Rust `Vec` stack is a
list whose **head** is the `Vec`'s last (top) element; `triples` is the FIFO
queue with its head at the front.  The `reader` and `factory` fields carry no
semantics in the model (events arrive pre-tokenised, interning is
unobservable). -/
structure XmlParser where
  namespaces : List NsMap
  lang : List (Option String)
  parents : List Term
  triples : List Triple
  in_node : Bool
  bnodes : Nat
  text : Option Text
deriving DecidableEq

/-- `XmlParser::new` (xml.rs 217-229). -/
def initParser : XmlParser :=
  { namespaces := [pmDefault], lang := [none], parents := [], triples := [],
    in_node := false, bnodes := 0, text := none }

/-- Panic message standing for `Option::unwrap` on `None`
(`unwrap()`, `parents.last().unwrap()`, `object.unwrap()`). -/
def unwrapMsg : String := "called unwrap on a None value"

/-- Panic message standing for a `Vec` index underflow/out-of-bounds
(`parents[len - 2]` with fewer than two entries, `parents[len - 3]`). -/
def outOfBoundsMsg : String := "index out of bounds"

/-- Panic message of the ambiguous-subject check in `node_start`
(xml.rs 275 and 283). -/
def ambiguousSubjMsg : String :=
  "cannot have rdf:ID, rdf:about and rdf:nodeId at the same time"

/-- Panic message of the ambiguous-object check in `predicate_empty`
(xml.rs 433 and 439). -/
def ambiguousObjMsg : String :=
  "cannot have rdf:resource and rdf:nodeId at the same time"

/-- `self.namespaces.last()` / `last_mut()` followed by `.unwrap()`. -/
def topNs (st : XmlParser) : Except String NsMap :=
  match st.namespaces with
  | [] => .error unwrapMsg
  | m :: _ => .ok m

/-- An iteration order for the `HashMap<Term, Term>` of property attributes in
`node_start`; admissible orders are exactly the permutations of the entries. -/
abbrev HashOrder := List (Term × Term) → List (Term × Term)

-- ---------------------------------------------------------------------------
-- Scope handling (xml.rs 177-213)
-- ---------------------------------------------------------------------------

/-- First attribute loop of `enter_scope` (xml.rs 180-188): register every
`xmlns:<p>` attribute via `add_prefix` (which panics on `xmlns:_`). -/
def scanXmlns (m : NsMap) : List Attr → Except String NsMap
  | [] => .ok m
  | a :: rest =>
    if keyStarts a.key "xmlns:" then
      match addNsBinding m (strDrop a.key 6) a.value with
      | .error e => .error e
      | .ok m1 => scanXmlns m1 rest
    else scanXmlns m rest

/-- Second attribute loop of `enter_scope` (xml.rs 192-201): the last
`xml:lang` attribute (if any) replaces the inherited tag. -/
def scanLang (cur : Option String) : List Attr → Option String
  | [] => cur
  | a :: rest => scanLang (if a.key = "xml:lang" then some a.value else cur) rest

/-- `XmlParser::enter_scope` (xml.rs 177-206): clone the top namespace frame
extended with the `xmlns:` attributes, clone the top lang frame overridden by
`xml:lang`, push both, reset the text accumulator. -/
def enterScope (st : XmlParser) (attrs : List Attr) : Except String XmlParser :=
  match st.namespaces with
  | [] => .error unwrapMsg
  | top :: _ =>
    match scanXmlns top attrs with
    | .error e => .error e
    | .ok ns1 =>
      match st.lang with
      | [] => .error unwrapMsg
      | ltop :: _ =>
        .ok { st with
              namespaces := ns1 :: st.namespaces,
              lang := scanLang ltop attrs :: st.lang,
              text := none }

/-- `XmlParser::leave_scope` (xml.rs 209-213): pop one frame from each scope
stack (`Vec::pop` is a no-op on an empty stack) and clear the text. -/
def leaveScope (st : XmlParser) : XmlParser :=
  { st with namespaces := st.namespaces.tail, lang := st.lang.tail, text := none }

/-- The unconditional `self.parents.pop()` at the end of `element_end`. -/
def popParent (st : XmlParser) : XmlParser :=
  { st with parents := st.parents.tail }

-- ---------------------------------------------------------------------------
-- node_start (xml.rs 254-318)
-- ---------------------------------------------------------------------------

/-- `HashMap::insert` on the property map: overwrite in place, else append.
The resulting list order is the first-insertion order; the iteration order the
Rust `HashMap` exposes is an arbitrary permutation of it. -/
def propInsert (props : List (Term × Term)) (k v : Term) : List (Term × Term) :=
  match props with
  | [] => [(k, v)]
  | kv :: rest => if kv.1 = k then (k, v) :: rest else kv :: propInsert rest k v

/-- The attribute loop of `node_start` (xml.rs 258-289): skip keys starting
with `xmlns` (including the bare `xmlns`), expand the rest as CURIEs, let
`rdf:about`/`rdf:nodeID` mark the subject (panicking when one is already set),
silently skip `rdf:ID` (empty branch, xml.rs 277) and `xml:lang`, and collect
every other attribute as a property `xsd:string` literal. -/
def collectNodeAttrs (pm : NsMap) : List Attr → Option Term → List (Term × Term) →
    Except String (Option Term × List (Term × Term))
  | [], subj, props => .ok (subj, props)
  | a :: rest, subj, props =>
    if keyStarts a.key "xmlns" then collectNodeAttrs pm rest subj props
    else
      match expandCurieString pm a.key with
      | .error e => .error e
      | .ok k =>
        if k = rdfAbout then
          match subj with
          | none => collectNodeAttrs pm rest (some (factoryIri a.value)) props
          | some _ => .error ambiguousSubjMsg
        else if k = rdfID then
          collectNodeAttrs pm rest subj props
        else if k = rdfNodeID then
          match subj with
          | none => collectNodeAttrs pm rest (some (factoryBnode ("o" ++ a.value))) props
          | some _ => .error ambiguousSubjMsg
        else if k = xmlLang then
          collectNodeAttrs pm rest subj props
        else
          collectNodeAttrs pm rest subj
            (propInsert props k (factoryLiteralDt a.value xsdString))

/-- `XmlParser::node_start` (xml.rs 254-318).  Note that
`subject.unwrap_or(self.factory.bnode(format!("n{}", self.bnodes.next()..)..)`
evaluates its argument eagerly, so the blank-node counter advances on every
node element, named or not.  The parent-linking triple reads
`parents[len-3]`/`parents[len-2]` (indices 2 and 1 from the top), which
underflows — panics — when `parents.len() == 2`. -/
def nodeStartCore (ho : HashOrder) (st : XmlParser) (name : String)
    (attrs : List Attr) : Except String XmlParser :=
  match topNs st with
  | .error e => .error e
  | .ok pm =>
    match collectNodeAttrs pm attrs none [] with
    | .error e => .error e
    | .ok sp =>
      let s := sp.1.getD (factoryBnode ("n" ++ toString st.bnodes))
      let parents1 := s :: st.parents
      match expandCurieString pm name with
      | .error e => .error e
      | .ok ty =>
        let tyTriples : List Triple :=
          if ty = rdfDescription then [] else [(s, rdfType, ty)]
        let propTriples : List Triple := (ho sp.2).map (fun kv => (s, kv.1, kv.2))
        if parents1.length > 1 then
          match parents1.get? 2, parents1.get? 1 with
          | some gs, some gp =>
            .ok { st with
                  parents := parents1
                  bnodes := st.bnodes + 1
                  triples := st.triples ++ tyTriples ++ propTriples ++ [(gs, gp, s)] }
          | _, _ => .error outOfBoundsMsg
        else
          .ok { st with
                parents := parents1
                bnodes := st.bnodes + 1
                triples := st.triples ++ tyTriples ++ propTriples }

-- ---------------------------------------------------------------------------
-- predicate_start / predicate_end (xml.rs 320-341, 365-383)
-- ---------------------------------------------------------------------------

/-- The attribute loop of `predicate_start` (xml.rs 329-339): every non-`xmlns`
attribute is CURIE-expanded; an `rdf:datatype` attribute sets the datatype of
the pending literal (as an absolute IRI, not expanded), the last one winning. -/
def collectDatatype (pm : NsMap) : List Attr → Option Term → Except String (Option Term)
  | [], dt => .ok dt
  | a :: rest, dt =>
    if keyStarts a.key "xmlns" then collectDatatype pm rest dt
    else
      match expandCurieString pm a.key with
      | .error e => .error e
      | .ok k =>
        if k = rdfDatatype then collectDatatype pm rest (some (factoryIri a.value))
        else collectDatatype pm rest dt

/-- `XmlParser::predicate_start` (xml.rs 320-341): resolve the element name as
the predicate, push it on `parents`, and initialise the text accumulator. -/
def predicateStart (st : XmlParser) (name : String) (attrs : List Attr) :
    Except String XmlParser :=
  match topNs st with
  | .error e => .error e
  | .ok pm =>
    match expandCurieString pm name with
    | .error e => .error e
    | .ok p =>
      match collectDatatype pm attrs none with
      | .error e => .error e
      | .ok dt =>
        .ok { st with
              parents := p :: st.parents
              text := some { datatype := dt, text := "" } }

/-- `XmlParser::predicate_end` (xml.rs 365-383): re-resolve the element name,
and if the text accumulator is present (`if let Some(text) = self.text.take()`)
emit `(parents[len-2], name-as-CURIE, literal)` where the literal is typed by
the accumulated datatype, else language-tagged by the innermost `xml:lang`,
else typed `xsd:string`. -/
def predicateEnd (st : XmlParser) (name : String) : Except String XmlParser :=
  match topNs st with
  | .error e => .error e
  | .ok pm =>
    match expandCurieString pm name with
    | .error e => .error e
    | .ok p =>
      match st.text with
      | none => .ok st
      | some t =>
        match st.parents.get? 1 with
        | none => .error outOfBoundsMsg
        | some s =>
          let o : Term :=
            match t.datatype, st.lang.head? with
            | some dt, _ => factoryLiteralDt t.text dt
            | none, some (some l) => factoryLiteralLang t.text l
            | none, _ => factoryLiteralDt t.text xsdString
          .ok { st with text := none, triples := st.triples ++ [(s, p, o)] }

-- ---------------------------------------------------------------------------
-- predicate_empty / node_empty (xml.rs 399-447)
-- ---------------------------------------------------------------------------

/-- The attribute loop of `predicate_empty` (xml.rs 418-442): skip only
`xmlns:`-prefixed keys (a bare `xmlns` is CURIE-expanded and panics), let
`rdf:resource`/`rdf:nodeID` set the object, panicking when one is already
set. -/
def collectEmptyObj (pm : NsMap) : List Attr → Option Term → Except String (Option Term)
  | [], obj => .ok obj
  | a :: rest, obj =>
    if keyStarts a.key "xmlns:" then collectEmptyObj pm rest obj
    else
      match expandCurieString pm a.key with
      | .error e => .error e
      | .ok k =>
        if k = rdfResource then
          match obj with
          | none => collectEmptyObj pm rest (some (factoryIri a.value))
          | some _ => .error ambiguousObjMsg
        else if k = rdfNodeID then
          match obj with
          | none => collectEmptyObj pm rest (some (factoryBnode ("o" ++ a.value)))
          | some _ => .error ambiguousObjMsg
        else collectEmptyObj pm rest obj

/-- `XmlParser::predicate_empty` (xml.rs 413-447): emit
`(parents.last().unwrap(), name-as-CURIE, object.unwrap())` — the final
`object.unwrap()` (marked `// FIXME` in the source) panics when neither
`rdf:resource` nor `rdf:nodeID` was given. -/
def predicateEmpty (st : XmlParser) (name : String) (attrs : List Attr) :
    Except String XmlParser :=
  match topNs st with
  | .error e => .error e
  | .ok pm =>
    match expandCurieString pm name with
    | .error e => .error e
    | .ok p =>
      match collectEmptyObj pm attrs none with
      | .error e => .error e
      | .ok objOpt =>
        match st.parents.head? with
        | none => .error unwrapMsg
        | some s =>
          match objOpt with
          | none => .error unwrapMsg
          | some o => .ok { st with triples := st.triples ++ [(s, p, o)] }

-- ---------------------------------------------------------------------------
-- Event dispatch (xml.rs 233-252, 345-363, 387-397, 401-409)
-- ---------------------------------------------------------------------------

/-- `self.in_node = !self.in_node`. -/
def flipNode (st : XmlParser) : XmlParser := { st with in_node := !st.in_node }

/-- `XmlParser::element_start` (xml.rs 233-252): enter the scope; unless the
element is the `rdf:RDF` wrapper, flip `in_node` and dispatch to
`node_start`/`predicate_start` (the `println!` is ignored). -/
def elementStart (ho : HashOrder) (st : XmlParser) (name : String)
    (attrs : List Attr) : Except String XmlParser :=
  match enterScope st attrs with
  | .error e => .error e
  | .ok st1 =>
    if name = "rdf:RDF" then .ok st1
    else
      if (flipNode st1).in_node then nodeStartCore ho (flipNode st1) name attrs
      else predicateStart (flipNode st1) name attrs

/-- `XmlParser::element_end` (xml.rs 345-363): unless closing `rdf:RDF`, run
`predicate_end` when in predicate position and flip `in_node`; then leave the
scope and pop `parents` **unconditionally**. -/
def elementEnd (st : XmlParser) (name : String) : Except String XmlParser :=
  if name = "rdf:RDF" then .ok (popParent (leaveScope st))
  else
    match (if !st.in_node then predicateEnd st name else .ok st) with
    | .error e => .error e
    | .ok st1 => .ok (popParent (leaveScope (flipNode st1)))

/-- `XmlParser::element_text` / `predicate_text` (xml.rs 387-397): inside a
predicate, the decoded character data **replaces** the accumulator's text. -/
def elementText (st : XmlParser) (s : String) : XmlParser :=
  if st.in_node then st
  else
    match st.text with
    | some t => { st with text := some { datatype := t.datatype, text := s } }
    | none => st

/-- `XmlParser::element_empty` / `node_empty` (xml.rs 401-411): enter the
scope, dispatch (`node_empty` is an empty function), leave the scope. -/
def elementEmpty (st : XmlParser) (name : String) (attrs : List Attr) :
    Except String XmlParser :=
  match enterScope st attrs with
  | .error e => .error e
  | .ok st1 =>
    match (if st1.in_node then predicateEmpty st1 name attrs else .ok st1) with
    | .error e => .error e
    | .ok st2 => .ok (leaveScope st2)

/-- An XML event as delivered by the quick-xml reader (`Event::Start` etc.);
`other` stands for every event kind the parser ignores (`_ => ()`). -/
inductive Event where
  | start (name : String) (attrs : List Attr)
  | emptyElem (name : String) (attrs : List Attr)
  | endElem (name : String)
  | text (s : String)
  | eof
  | other
deriving DecidableEq

/-- Dispatch of one event inside `<XmlParser as Iterator>::next`
(xml.rs 464-471); `Event::Eof` is handled by the driver before dispatch. -/
def processEvent (ho : HashOrder) (st : XmlParser) : Event → Except String XmlParser
  | .start n a => elementStart ho st n a
  | .emptyElem n a => elementEmpty st n a
  | .endElem n => elementEnd st n
  | .text s => .ok (elementText st s)
  | .eof => .ok st
  | .other => .ok st

/-- Process a whole event sequence (used to observe the state the iterator
reaches after each event). -/
def processEvents (ho : HashOrder) : XmlParser → List Event → Except String XmlParser
  | st, [] => .ok st
  | st, ev :: evs =>
    match processEvent ho st ev with
    | .error e => .error e
    | .ok st1 => processEvents ho st1 evs

-- ---------------------------------------------------------------------------
-- The iterator (xml.rs 450-474)
-- ---------------------------------------------------------------------------

/-- One item of the underlying XML event source: `read_event` either yields an
event or reports an error (`quick_xml::Result`). -/
abbrev SourceItem := Except String Event

instance {ε α : Type} [DecidableEq ε] [DecidableEq α] : DecidableEq (Except ε α) :=
  fun x y =>
  match x, y with
  | .error e, .error f =>
    if h : e = f then isTrue (by rw [h]) else isFalse (fun hc => h (Except.error.inj hc))
  | .error _, .ok _ => isFalse (fun hc => Except.noConfusion hc)
  | .ok _, .error _ => isFalse (fun hc => Except.noConfusion hc)
  | .ok a, .ok b =>
    if h : a = b then isTrue (by rw [h]) else isFalse (fun hc => h (Except.ok.inj hc))

/-- Outcome of one call to `<XmlParser as Iterator>::next`. -/
inductive NextRes where
  | item (t : Triple) (st : XmlParser) (rest : List SourceItem)
  | finished
  | fatal (msg : String)
deriving DecidableEq

/-- `<XmlParser as Iterator>::next` (xml.rs 457-473): drain the queue first;
otherwise read events until a triple is produced or `Eof` ends the iteration.
`self.reader.read_event(..).unwrap()` panics (`.fatal`) on a source error, and
a panic inside the state machine also surfaces as `.fatal`.  An exhausted
source list is treated as `Eof`. -/
def runNext (ho : HashOrder) : List SourceItem → XmlParser → NextRes
  | src, st =>
    match st.triples with
    | t :: q => .item t { st with triples := q } src
    | [] =>
      match src with
      | [] => .finished
      | .error e :: _ => .fatal ("xml error: " ++ e)
      | .ok .eof :: _ => .finished
      | .ok ev :: rest =>
        match processEvent ho st ev with
        | .error m => .fatal m
        | .ok st1 => runNext ho rest st1

-- ---------------------------------------------------------------------------
-- Graph sinks (src/sophia/src/graph/sinks.rs)
-- ---------------------------------------------------------------------------

/-- The `MutableGraph` collaborator seen by the sinks: `insert`/`remove` return
the updated graph plus the "was new"/"was present" flag, or the graph's error
(spec section 6, sink contract). -/
structure MGraph (γ ε : Type) where
  insert : γ → Triple → Except ε (γ × Bool)
  remove : γ → Triple → Except ε (γ × Bool)

/-- The `Inserter` sink (sinks.rs 7-33): a graph plus a running counter. -/
structure Inserter (γ : Type) where
  graph : γ
  count : Nat
deriving DecidableEq

/-- `Inserter::new` (sinks.rs 12-16). -/
def Inserter.new {γ : Type} (g : γ) : Inserter γ := { graph := g, count := 0 }

/-- `<Inserter as TripleSink>::feed` (sinks.rs 22-28): insert the triple; when
the graph says it was newly added, increment the counter. -/
def Inserter.feed {γ ε : Type} (M : MGraph γ ε) (sink : Inserter γ) (t : Triple) :
    Except ε (Inserter γ) :=
  match M.insert sink.graph t with
  | .error e => .error e
  | .ok gb =>
    .ok { graph := gb.1, count := if gb.2 then sink.count + 1 else sink.count }

/-- `<Inserter as TripleSink>::finish` (sinks.rs 29-31). -/
def Inserter.finish {γ ε : Type} (sink : Inserter γ) : Except ε Nat := .ok sink.count

/-- Feed a whole (drained) triple sequence, short-circuiting on error. -/
def feedAllInserter {γ ε : Type} (M : MGraph γ ε) :
    Inserter γ → List Triple → Except ε (Inserter γ)
  | sink, [] => .ok sink
  | sink, t :: ts =>
    match Inserter.feed M sink t with
    | .error e => .error e
    | .ok s1 => feedAllInserter M s1 ts

/-- The number of fed triples for which `graph.insert` returned `true`, stated
independently of the sink's threaded counter (the claim's measure). -/
def insertTrueCount {γ ε : Type} (M : MGraph γ ε) : γ → List Triple → Nat
  | _, [] => 0
  | g, t :: ts =>
    match M.insert g t with
    | .error _ => 0
    | .ok gb => (if gb.2 then 1 else 0) + insertTrueCount M gb.1 ts

/-- The `Remover` sink (sinks.rs 36-61), symmetric to `Inserter`. -/
structure Remover (γ : Type) where
  graph : γ
  count : Nat
deriving DecidableEq

/-- `Remover::new` (sinks.rs 41-45). -/
def Remover.new {γ : Type} (g : γ) : Remover γ := { graph := g, count := 0 }

/-- `<Remover as TripleSink>::feed` (sinks.rs 51-57): remove the triple; when
the graph says it was present, increment the counter. -/
def Remover.feed {γ ε : Type} (M : MGraph γ ε) (sink : Remover γ) (t : Triple) :
    Except ε (Remover γ) :=
  match M.remove sink.graph t with
  | .error e => .error e
  | .ok gb =>
    .ok { graph := gb.1, count := if gb.2 then sink.count + 1 else sink.count }

/-- `<Remover as TripleSink>::finish` (sinks.rs 58-60). -/
def Remover.finish {γ ε : Type} (sink : Remover γ) : Except ε Nat := .ok sink.count

/-- Feed a whole (drained) triple sequence into a `Remover`. -/
def feedAllRemover {γ ε : Type} (M : MGraph γ ε) :
    Remover γ → List Triple → Except ε (Remover γ)
  | sink, [] => .ok sink
  | sink, t :: ts =>
    match Remover.feed M sink t with
    | .error e => .error e
    | .ok s1 => feedAllRemover M s1 ts

/-- The number of fed triples for which `graph.remove` returned `true`. -/
def removeTrueCount {γ ε : Type} (M : MGraph γ ε) : γ → List Triple → Nat
  | _, [] => 0
  | g, t :: ts =>
    match M.remove g t with
    | .error _ => 0
    | .ok gb => (if gb.2 then 1 else 0) + removeTrueCount M gb.1 ts


end Sophia

-- ===========================================================================
-- Theorems
-- ===========================================================================

namespace Sophia

-- ---------------------------------------------------------------------------
-- Shared helper lemmas about predicate_end
-- ---------------------------------------------------------------------------

/-- The object literal the specification prescribes for a predicate element
that ends with accumulated text: the accumulated `rdf:datatype` wins, else the
innermost in-scope `xml:lang`, else `xsd:string` (spec sections 4.4 and 8,
stated with the factory operations). -/
def specObjectLiteral (dt : Option Term) (lng : Option String) (lex : String) : Term :=
  match dt with
  | some d => factoryLiteralDt lex d
  | none =>
    match lng with
    | some l => factoryLiteralLang lex l
    | none => factoryLiteralDt lex xsdString

/-- When the text accumulator is present, `predicate_end` emits exactly one
triple `(parents[len-2], curie(name), specObjectLiteral ..)`. -/
theorem predicateEnd_some_eq (st : XmlParser) (name : String) (t : Text)
    (pm : NsMap) (nstl : List NsMap) (p s : Term) (lcur : Option String)
    (lrest : List (Option String))
    (hns : st.namespaces = pm :: nstl)
    (hp : expandCurieString pm name = .ok p)
    (htext : st.text = some t)
    (hs : st.parents.get? 1 = some s)
    (hlang : st.lang = lcur :: lrest) :
    predicateEnd st name =
      .ok { st with
            text := none
            triples := st.triples
              ++ [(s, p, specObjectLiteral t.datatype lcur t.text)] } := by
  simp only [predicateEnd, topNs, hns, hp, htext, hs, hlang, List.head?_cons]
  cases hdt : t.datatype with
  | some dt => simp [specObjectLiteral]
  | none =>
    cases lcur with
    | some l => simp [specObjectLiteral]
    | none => simp [specObjectLiteral]

/-- When the text accumulator is absent, `predicate_end` leaves the state
unchanged (the element-name CURIE is still resolved first). -/
theorem predicateEnd_none_eq (st : XmlParser) (name : String)
    (pm : NsMap) (nstl : List NsMap) (p : Term)
    (hns : st.namespaces = pm :: nstl)
    (hp : expandCurieString pm name = .ok p)
    (htext : st.text = none) :
    predicateEnd st name = .ok st := by
  simp only [predicateEnd, topNs, hns, hp, htext]

-- ---------------------------------------------------------------------------
-- C1
-- ---------------------------------------------------------------------------

/-- C1: for every predicate element ending with accumulated text, the emitted
object literal is typed by the accumulated `rdf:datatype` if one was given,
else language-tagged by the innermost in-scope `xml:lang` if set, else typed
`xsd:string`; the triple's subject is `parents[len-2]` (index 1 from the top)
and its predicate is the element name resolved as a CURIE. -/
theorem predicate_end_object_literal (st : XmlParser) (name : String) (t : Text)
    (pm : NsMap) (nstl : List NsMap) (p s : Term) (lcur : Option String)
    (lrest : List (Option String))
    (hns : st.namespaces = pm :: nstl)
    (hp : expandCurieString pm name = .ok p)
    (htext : st.text = some t)
    (hs : st.parents.get? 1 = some s)
    (hlang : st.lang = lcur :: lrest) :
    predicateEnd st name =
      .ok { st with
            text := none
            triples := st.triples
              ++ [(s, p, specObjectLiteral t.datatype lcur t.text)] } :=
  predicateEnd_some_eq st name t pm nstl p s lcur lrest hns hp htext hs hlang

/-- Concrete instance of C1: a predicate with no datatype under `xml:lang`
`"en"` yields the language-tagged literal. -/
def c1wSt : XmlParser :=
  { namespaces := [("ex", "http://e/") :: pmDefault], lang := [some "en"],
    parents := [Term.iri "http://e/p", Term.iri "http://e/s"], triples := [],
    in_node := false, bnodes := 0,
    text := some { datatype := none, text := "hi" } }

/-- Witness for C1 at a concrete state. -/
theorem predicate_end_object_literal_witness :
    c1wSt.namespaces = (("ex", "http://e/") :: pmDefault) :: [] ∧
    expandCurieString (("ex", "http://e/") :: pmDefault) "ex:p"
      = .ok (Term.iri "http://e/p") ∧
    c1wSt.text = some { datatype := none, text := "hi" } ∧
    c1wSt.parents.get? 1 = some (Term.iri "http://e/s") ∧
    c1wSt.lang = some "en" :: [] ∧
    predicateEnd c1wSt "ex:p" =
      .ok { c1wSt with
            text := none
            triples := c1wSt.triples
              ++ [(Term.iri "http://e/s", Term.iri "http://e/p",
                   specObjectLiteral none (some "en") "hi")] } :=
  ⟨rfl, rfl, rfl, rfl, rfl,
   predicate_end_object_literal c1wSt "ex:p" { datatype := none, text := "hi" }
     (("ex", "http://e/") :: pmDefault) [] (Term.iri "http://e/p")
     (Term.iri "http://e/s") (some "en") [] rfl rfl rfl rfl rfl⟩

-- ---------------------------------------------------------------------------
-- C3
-- ---------------------------------------------------------------------------

/-- C3: `expand_curie_string` splits at the first colon and on success returns
the namespace-plus-local concatenation, but on a missing colon or an unknown
prefix it **panics** (`panic!("missing prefix: ..")`, `panic!("no such
namespace")`) instead of returning the `MissingPrefix`/`UnknownPrefix` error
values the claim requires (`Except.error` models the panic, per the module
conventions). -/
theorem expand_curie_string_panics_not_errors :
    expandCurieString (("ex", "http://example.org/") :: pmDefault) "nocolon"
      = .error ("missing prefix: " ++ "nocolon") ∧
    expandCurieString (("ex", "http://example.org/") :: pmDefault) "zz:x"
      = .error noSuchNsMsg ∧
    expandCurieString (("ex", "http://example.org/") :: pmDefault) "ex:loc"
      = .ok (Term.iri ("http://example.org/" ++ "loc")) :=
  ⟨rfl, rfl, rfl⟩

-- ---------------------------------------------------------------------------
-- C4
-- ---------------------------------------------------------------------------

/-- C4: an error reported by the XML event source is **not** surfaced as an
`Err` item of the iterator: `next` calls `read_event(..).unwrap()`
(xml.rs 464), so the source error aborts the process (`.fatal` models the
panic) and the iterator is not usable afterwards. -/
theorem xml_source_error_panics :
    runNext (fun l => l) [.error "mismatched end tag"] initParser
      = .fatal ("xml error: " ++ "mismatched end tag") := rfl

-- ---------------------------------------------------------------------------
-- C7
-- ---------------------------------------------------------------------------

/-- Node-start state with `rdf` and `ex` prefixes in scope. -/
def c7st : XmlParser :=
  { initParser with namespaces := [("rdf", rdfNS) :: ("ex", "http://e/") :: pmDefault] }

/-- C7: the mutual-exclusion check of `node_start` does **not** fail for every
combination of two of `rdf:about`/`rdf:ID`/`rdf:nodeID`: the `rdf:ID` branch
is empty (xml.rs 277), so `rdf:about`+`rdf:ID` and `rdf:ID`+`rdf:nodeID` are
silently accepted and emit triples, and the one detected combination
`rdf:about`+`rdf:nodeID` panics (`Except.error` models the panic) instead of
surfacing an `AmbiguousSubject` error value. -/
theorem ambiguous_subject_unchecked_for_rdf_id :
    Except.map XmlParser.triples
        (nodeStartCore (fun l => l) c7st "ex:T"
          [{ key := "rdf:about", value := "http://x/a" },
           { key := "rdf:ID", value := "i" }])
      = .ok [(Term.iri "http://x/a", rdfType, Term.iri "http://e/T")] ∧
    Except.map XmlParser.triples
        (nodeStartCore (fun l => l) c7st "ex:T"
          [{ key := "rdf:ID", value := "i" },
           { key := "rdf:nodeID", value := "b" }])
      = .ok [(Term.bnode "ob", rdfType, Term.iri "http://e/T")] ∧
    nodeStartCore (fun l => l) c7st "ex:T"
        [{ key := "rdf:about", value := "http://x/a" },
         { key := "rdf:nodeID", value := "b" }]
      = .error ambiguousSubjMsg :=
  ⟨rfl, rfl, rfl⟩

-- ---------------------------------------------------------------------------
-- C9
-- ---------------------------------------------------------------------------

/-- A source trace reaching an `Empty` event in predicate position whose
element carries neither `rdf:resource` nor `rdf:nodeID`: `<rdf:RDF>`
`<rdf:Description>` `<ex:p/>`. -/
def c9trace : List SourceItem :=
  [.ok (.start "rdf:RDF"
     [{ key := "xmlns:rdf", value := "http://www.w3.org/1999/02/22-rdf-syntax-ns#" },
      { key := "xmlns:ex", value := "http://example.org/" }]),
   .ok (.start "rdf:Description" []),
   .ok (.emptyElem "ex:p" [])]

/-- C9: through the public iterator, an `Empty` predicate element with neither
`rdf:resource` nor `rdf:nodeID` drives `predicate_empty` into
`object.unwrap()` on `None` (xml.rs 445, marked `// FIXME`), i.e. a panic
(`.fatal` models it) rather than an `Err` item or a triple. -/
theorem empty_predicate_without_object_panics :
    runNext (fun l => l) c9trace initParser = .fatal unwrapMsg := rfl

-- ---------------------------------------------------------------------------
-- C5
-- ---------------------------------------------------------------------------

/-- A predicate-end state whose accumulated text is present but **empty**
(exactly what `<ex:p></ex:p>` produces: `predicate_start` sets
`text = Some(Text { datatype: None, text: "" })`). -/
def c5st : XmlParser :=
  { namespaces := [("ex", "http://e/") :: pmDefault], lang := [none],
    parents := [Term.iri "http://e/p", Term.iri "http://e/s"], triples := [],
    in_node := false, bnodes := 0,
    text := some { datatype := none, text := "" } }

/-- C5 counterexample: with the accumulated text present but equal to the
empty string, `predicate_end` **does** emit a triple (an empty `xsd:string`
literal), contradicting the claim that a predicate element whose accumulated
text is empty emits no triple — the source checks only
`if let Some(text) = self.text.take()` (xml.rs 371), never non-emptiness. -/
theorem predicate_end_empty_text_emits_cex :
    c5st.text = some { datatype := none, text := "" } ∧
    predicateEnd c5st "ex:p" =
      .ok { c5st with
            text := none
            triples := [(Term.iri "http://e/s", Term.iri "http://e/p",
                         Term.literal "" (.typed xsdStringIri))] } ∧
    [(Term.iri "http://e/s", Term.iri "http://e/p",
      Term.literal "" (.typed xsdStringIri))] ≠ c5st.triples :=
  ⟨rfl, rfl, by decide⟩

/-- C5 (amended): at a predicate element's `End` event, an object-literal
triple is emitted **iff** the accumulated text is present (`Some`), regardless
of whether its string is empty; an absent accumulator emits nothing and an
empty accumulated string emits a literal with empty lexical form. -/
theorem predicate_end_emits_iff_text_present (st : XmlParser) (name : String)
    (pm : NsMap) (nstl : List NsMap) (p : Term)
    (hns : st.namespaces = pm :: nstl)
    (hp : expandCurieString pm name = .ok p) :
    (st.text = none → predicateEnd st name = .ok st) ∧
    (∀ (t : Text) (s : Term) (lcur : Option String) (lrest : List (Option String)),
       st.text = some t → st.parents.get? 1 = some s → st.lang = lcur :: lrest →
       predicateEnd st name =
         .ok { st with
               text := none
               triples := st.triples
                 ++ [(s, p, specObjectLiteral t.datatype lcur t.text)] }) :=
  ⟨fun htext => predicateEnd_none_eq st name pm nstl p hns hp htext,
   fun t s lcur lrest htext hs hlang =>
     predicateEnd_some_eq st name t pm nstl p s lcur lrest hns hp htext hs hlang⟩

/-- The same state as `c5st` with an absent accumulator. -/
def c5wSt : XmlParser := { c5st with text := none }

/-- Witness for C5 at a concrete state: with the accumulator absent, no triple
is emitted. -/
theorem predicate_end_emits_iff_text_present_witness :
    c5wSt.namespaces = (("ex", "http://e/") :: pmDefault) :: [] ∧
    expandCurieString (("ex", "http://e/") :: pmDefault) "ex:p"
      = .ok (Term.iri "http://e/p") ∧
    c5wSt.text = none ∧
    predicateEnd c5wSt "ex:p" = .ok c5wSt :=
  ⟨rfl, rfl, rfl,
   (predicate_end_emits_iff_text_present c5wSt "ex:p"
      (("ex", "http://e/") :: pmDefault) [] (Term.iri "http://e/p") rfl rfl).1 rfl⟩

-- ---------------------------------------------------------------------------
-- C10
-- ---------------------------------------------------------------------------

/-- The attribute loop of `node_start` never looks at an attribute whose key
starts with `xmlns` (the `continue` at xml.rs 263-266 fires before any CURIE
resolution). -/
theorem collectNodeAttrs_filter_xmlns (pm : NsMap) (attrs : List Attr) :
    ∀ (subj : Option Term) (props : List (Term × Term)),
      collectNodeAttrs pm attrs subj props =
        collectNodeAttrs pm (attrs.filter (fun a => !keyStarts a.key "xmlns"))
          subj props := by
  induction attrs with
  | nil => intro subj props; rfl
  | cons a rest ih =>
    intro subj props
    cases hx : keyStarts a.key "xmlns" with
    | true =>
      simp only [collectNodeAttrs, hx, if_true, List.filter_cons, Bool.not_true,
                 Bool.false_eq_true, if_false]
      exact ih subj props
    | false =>
      simp only [collectNodeAttrs, hx, List.filter_cons, Bool.not_false, if_true,
                 Bool.false_eq_true, if_false]
      simp only [ih]

/-- C10: on every node-position element start, attributes whose key begins
with `xmlns` — including the bare `xmlns` default-namespace attribute — are
skipped before CURIE resolution: `node_start` behaves exactly as if they were
absent, so they never mark a subject, never yield a property triple, and never
cause a prefix-resolution failure. -/
theorem node_start_skips_xmlns_attrs (ho : HashOrder) (st : XmlParser)
    (name : String) (attrs : List Attr) :
    nodeStartCore ho st name attrs =
      nodeStartCore ho st name
        (attrs.filter (fun a => !keyStarts a.key "xmlns")) := by
  unfold nodeStartCore
  cases htop : topNs st with
  | error e => rfl
  | ok pm => simp only [collectNodeAttrs_filter_xmlns pm attrs none []]

-- ---------------------------------------------------------------------------
-- C8
-- ---------------------------------------------------------------------------

/-- The Inserter's threaded counter equals the count of `true` answers from
`graph.insert` over the fed triples. -/
theorem feedAllInserter_count {γ ε : Type} (M : MGraph γ ε) (ts : List Triple) :
    ∀ (sink fin : Inserter γ), feedAllInserter M sink ts = .ok fin →
      fin.count = sink.count + insertTrueCount M sink.graph ts := by
  induction ts with
  | nil =>
    intro sink fin h
    simp only [feedAllInserter, Except.ok.injEq] at h
    subst h
    simp [insertTrueCount]
  | cons t ts ih =>
    intro sink fin h
    simp only [feedAllInserter] at h
    split at h
    · exact absurd h (by simp)
    · rename_i s1 hfeed
      have h2 := ih _ _ h
      unfold Inserter.feed at hfeed
      split at hfeed
      · exact absurd hfeed (by simp)
      · rename_i gb hg
        simp only [Except.ok.injEq] at hfeed
        subst hfeed
        dsimp only at h2
        simp only [insertTrueCount, hg]
        cases hb : gb.2 <;> simp [hb] at h2 ⊢ <;> omega

/-- The Remover's threaded counter equals the count of `true` answers from
`graph.remove` over the fed triples. -/
theorem feedAllRemover_count {γ ε : Type} (M : MGraph γ ε) (ts : List Triple) :
    ∀ (sink fin : Remover γ), feedAllRemover M sink ts = .ok fin →
      fin.count = sink.count + removeTrueCount M sink.graph ts := by
  induction ts with
  | nil =>
    intro sink fin h
    simp only [feedAllRemover, Except.ok.injEq] at h
    subst h
    simp [removeTrueCount]
  | cons t ts ih =>
    intro sink fin h
    simp only [feedAllRemover] at h
    split at h
    · exact absurd h (by simp)
    · rename_i s1 hfeed
      have h2 := ih _ _ h
      unfold Remover.feed at hfeed
      split at hfeed
      · exact absurd hfeed (by simp)
      · rename_i gb hg
        simp only [Except.ok.injEq] at hfeed
        subst hfeed
        dsimp only at h2
        simp only [removeTrueCount, hg]
        cases hb : gb.2 <;> simp [hb] at h2 ⊢ <;> omega

/-- C8: for every drained triple sequence, the Inserter's final outcome equals
the number of fed triples for which `graph.insert` returned `true`, and the
Remover's final outcome equals the number for which `graph.remove` returned
`true`; a `false` answer leaves the counter unchanged. -/
theorem sink_counts_effective_changes {γ ε : Type} (M : MGraph γ ε) (g1 g2 : γ)
    (ts us : List Triple) (ins : Inserter γ) (rem : Remover γ)
    (hins : feedAllInserter M (Inserter.new g1) ts = .ok ins)
    (hrem : feedAllRemover M (Remover.new g2) us = .ok rem) :
    (Inserter.finish ins : Except ε Nat) = .ok (insertTrueCount M g1 ts) ∧
    (Remover.finish rem : Except ε Nat) = .ok (removeTrueCount M g2 us) := by
  constructor
  · have h := feedAllInserter_count M ts (Inserter.new g1) ins hins
    simp only [Inserter.new, Nat.zero_add] at h
    simp [Inserter.finish, h]
  · have h := feedAllRemover_count M us (Remover.new g2) rem hrem
    simp only [Remover.new, Nat.zero_add] at h
    simp [Remover.finish, h]

/-- A concrete set-semantics graph over triple lists (used by the witness). -/
def listGraph : MGraph (List Triple) Unit :=
  { insert := fun g t => .ok (if t ∈ g then (g, false) else (t :: g, true)),
    remove := fun g t => .ok (if t ∈ g then (g.erase t, true) else (g, false)) }

/-- Concrete triple for the sink witness. -/
def c8tA : Triple := (Term.iri "http://e/s", Term.iri "http://e/p", Term.iri "http://e/o1")

/-- Concrete triple for the sink witness. -/
def c8tB : Triple := (Term.iri "http://e/s", Term.iri "http://e/p", Term.iri "http://e/o2")

/-- Witness for C8: feeding `[tA, tA, tB]` into an empty graph counts 2 (the
duplicate is not newly added), removing `[tA, tB]` from `[tA]` counts 1. -/
theorem sink_counts_effective_changes_witness :
    feedAllInserter listGraph (Inserter.new []) [c8tA, c8tA, c8tB]
      = .ok { graph := [c8tB, c8tA], count := 2 } ∧
    feedAllRemover listGraph (Remover.new [c8tA]) [c8tA, c8tB]
      = .ok { graph := [], count := 1 } ∧
    insertTrueCount listGraph [] [c8tA, c8tA, c8tB] = 2 ∧
    removeTrueCount listGraph [c8tA] [c8tA, c8tB] = 1 ∧
    (Inserter.finish { graph := [c8tB, c8tA], count := 2 } : Except Unit Nat)
      = .ok (insertTrueCount listGraph [] [c8tA, c8tA, c8tB]) ∧
    (Remover.finish { graph := ([] : List Triple), count := 1 } : Except Unit Nat)
      = .ok (removeTrueCount listGraph [c8tA] [c8tA, c8tB]) := by
  have h := sink_counts_effective_changes listGraph [] [c8tA] [c8tA, c8tA, c8tB]
    [c8tA, c8tB] { graph := [c8tB, c8tA], count := 2 } { graph := [], count := 1 }
    (by decide) (by decide)
  exact ⟨by decide, by decide, by decide, by decide, h.1, h.2⟩


-- ---------------------------------------------------------------------------
-- C2: stack-depth invariant
-- ---------------------------------------------------------------------------

/-- Depth change of one event: a `Start` opens an element, an `End` closes
one, the other events leave the open-element depth unchanged. -/
def eventDepth (d : Nat) : Event → Nat
  | .start _ _ => d + 1
  | .endElem _ => d - 1
  | _ => d

/-- Open-element depth after a list of events, starting from `d`. -/
def depthAfter : Nat → List Event → Nat
  | d, [] => d
  | d, ev :: evs => depthAfter (eventDepth d ev) evs

/-- Event well-formedness at depth `d`: the depth-0 element start is the
`rdf:RDF` wrapper, deeper starts are not `rdf:RDF`, and every `End` closes an
open element.  Well-formed XML whose root is `rdf:RDF` (and which nests the
wrapper nowhere else) satisfies this; quick-xml itself enforces that end names
match start names. -/
def eventOkB (d : Nat) : Event → Bool
  | .start n _ => if d = 0 then n == "rdf:RDF" else n != "rdf:RDF"
  | .endElem _ => decide (0 < d)
  | _ => true

/-- A trace is proper from depth `d` when every event is well-formed at its
depth. -/
def properFrom : Nat → List Event → Bool
  | _, [] => true
  | d, ev :: evs => eventOkB d ev && properFrom (eventDepth d ev) evs

/-- The claimed relation between the stacks and the open-element depth. -/
abbrev StackInv (st : XmlParser) (d : Nat) : Prop :=
  st.namespaces.length = d + 1 ∧ st.lang.length = d + 1 ∧
  st.parents.length = d - 1

/-- A successful `enter_scope` pushes exactly one frame on each scope stack
and touches nothing else. -/
theorem enterScope_shape (st st1 : XmlParser) (attrs : List Attr)
    (h : enterScope st attrs = .ok st1) :
    st1.namespaces.length = st.namespaces.length + 1 ∧
    st1.lang.length = st.lang.length + 1 ∧
    st1.parents = st.parents ∧ st1.in_node = st.in_node ∧
    st1.triples = st.triples ∧ st1.bnodes = st.bnodes := by
  unfold enterScope at h
  split at h
  · exact absurd h (by simp)
  · split at h
    · exact absurd h (by simp)
    · split at h
      · exact absurd h (by simp)
      · simp only [Except.ok.injEq] at h
        subst h
        simp

/-- A successful `node_start` pushes exactly one entry on `parents` and leaves
the scope stacks unchanged. -/
theorem nodeStartCore_shape (ho : HashOrder) (st st1 : XmlParser) (name : String)
    (attrs : List Attr) (h : nodeStartCore ho st name attrs = .ok st1) :
    st1.namespaces = st.namespaces ∧ st1.lang = st.lang ∧
    st1.parents.length = st.parents.length + 1 := by
  unfold nodeStartCore at h
  split at h
  · exact absurd h (by simp)
  · split at h
    · exact absurd h (by simp)
    · split at h
      · exact absurd h (by simp)
      · split at h <;> dsimp only at h <;> split at h
        · split at h
          · simp only [Except.ok.injEq] at h
            subst h
            simp
          · exact absurd h (by simp)
        · simp only [Except.ok.injEq] at h
          subst h
          simp
        · split at h
          · simp only [Except.ok.injEq] at h
            subst h
            simp
          · exact absurd h (by simp)
        · simp only [Except.ok.injEq] at h
          subst h
          simp

/-- A successful `predicate_start` pushes exactly one entry on `parents` and
leaves the scope stacks unchanged. -/
theorem predicateStart_shape (st st1 : XmlParser) (name : String)
    (attrs : List Attr) (h : predicateStart st name attrs = .ok st1) :
    st1.namespaces = st.namespaces ∧ st1.lang = st.lang ∧
    st1.parents.length = st.parents.length + 1 := by
  unfold predicateStart at h
  split at h
  · exact absurd h (by simp)
  · split at h
    · exact absurd h (by simp)
    · split at h
      · exact absurd h (by simp)
      · simp only [Except.ok.injEq] at h
        subst h
        simp

/-- A successful `predicate_end` only appends triples and clears the text. -/
theorem predicateEnd_shape (st st1 : XmlParser) (name : String)
    (h : predicateEnd st name = .ok st1) :
    st1.namespaces = st.namespaces ∧ st1.lang = st.lang ∧
    st1.parents = st.parents ∧ st1.in_node = st.in_node := by
  unfold predicateEnd at h
  split at h
  · exact absurd h (by simp)
  · split at h
    · exact absurd h (by simp)
    · split at h
      · simp only [Except.ok.injEq] at h
        subst h
        exact ⟨rfl, rfl, rfl, rfl⟩
      · split at h
        · exact absurd h (by simp)
        · simp only [Except.ok.injEq] at h
          subst h
          simp

/-- A successful `predicate_empty` only appends one triple. -/
theorem predicateEmpty_shape (st st1 : XmlParser) (name : String)
    (attrs : List Attr) (h : predicateEmpty st name attrs = .ok st1) :
    st1.namespaces = st.namespaces ∧ st1.lang = st.lang ∧
    st1.parents = st.parents ∧ st1.in_node = st.in_node := by
  unfold predicateEmpty at h
  split at h
  · exact absurd h (by simp)
  · split at h
    · exact absurd h (by simp)
    · split at h
      · exact absurd h (by simp)
      · split at h
        · exact absurd h (by simp)
        · split at h
          · exact absurd h (by simp)
          · simp only [Except.ok.injEq] at h
            subst h
            simp

/-- `element_text` never touches the stacks. -/
theorem elementText_shape (st : XmlParser) (s : String) :
    (elementText st s).namespaces = st.namespaces ∧
    (elementText st s).lang = st.lang ∧
    (elementText st s).parents = st.parents := by
  unfold elementText
  split
  · exact ⟨rfl, rfl, rfl⟩
  · split
    · simp
    · exact ⟨rfl, rfl, rfl⟩

/-- A successful `element_start` pushes one scope frame on each stack, and one
`parents` entry unless the element is the `rdf:RDF` wrapper. -/
theorem elementStart_shape (ho : HashOrder) (st st1 : XmlParser) (name : String)
    (attrs : List Attr) (h : elementStart ho st name attrs = .ok st1) :
    st1.namespaces.length = st.namespaces.length + 1 ∧
    st1.lang.length = st.lang.length + 1 ∧
    st1.parents.length = st.parents.length
      + (if name = "rdf:RDF" then 0 else 1) := by
  unfold elementStart at h
  split at h
  · exact absurd h (by simp)
  · rename_i stE hE
    obtain ⟨e1, e2, e3, _, _, _⟩ := enterScope_shape st stE attrs hE
    by_cases hn : name = "rdf:RDF"
    · rw [if_pos hn] at h
      simp only [Except.ok.injEq] at h
      subst h
      rw [if_pos hn]
      refine ⟨e1, e2, by rw [e3]; omega⟩
    · rw [if_neg hn] at h
      rw [if_neg hn]
      split at h
      · obtain ⟨n1, n2, n3⟩ := nodeStartCore_shape ho _ st1 name attrs h
        refine ⟨?_, ?_, ?_⟩
        · rw [n1]; simp [flipNode, e1]
        · rw [n2]; simp [flipNode, e2]
        · rw [n3]; simp [flipNode, e3]
      · obtain ⟨n1, n2, n3⟩ := predicateStart_shape _ st1 name attrs h
        refine ⟨?_, ?_, ?_⟩
        · rw [n1]; simp [flipNode, e1]
        · rw [n2]; simp [flipNode, e2]
        · rw [n3]; simp [flipNode, e3]

/-- A successful `element_end` pops one frame from each scope stack and one
entry from `parents` (saturating at zero), whatever the element name. -/
theorem elementEnd_shape (st st1 : XmlParser) (name : String)
    (h : elementEnd st name = .ok st1) :
    st1.namespaces.length = st.namespaces.length - 1 ∧
    st1.lang.length = st.lang.length - 1 ∧
    st1.parents.length = st.parents.length - 1 := by
  unfold elementEnd at h
  split at h
  · simp only [Except.ok.injEq] at h
    subst h
    simp [popParent, leaveScope]
  · split at h
    · exact absurd h (by simp)
    · rename_i stA hA
      have hsh : stA.namespaces = st.namespaces ∧ stA.lang = st.lang ∧
          stA.parents = st.parents := by
        cases hb : st.in_node with
        | true =>
          simp only [hb, Bool.not_true, Bool.false_eq_true, if_false,
                     Except.ok.injEq] at hA
          subst hA
          exact ⟨rfl, rfl, rfl⟩
        | false =>
          simp only [hb, Bool.not_false, if_true] at hA
          obtain ⟨p1, p2, p3, _⟩ := predicateEnd_shape st stA name hA
          exact ⟨p1, p2, p3⟩
      simp only [Except.ok.injEq] at h
      subst h
      simp [popParent, leaveScope, flipNode, hsh.1, hsh.2.1, hsh.2.2]

/-- A successful `element_empty` leaves every stack depth unchanged. -/
theorem elementEmpty_shape (st st1 : XmlParser) (name : String)
    (attrs : List Attr) (h : elementEmpty st name attrs = .ok st1) :
    st1.namespaces.length = st.namespaces.length ∧
    st1.lang.length = st.lang.length ∧
    st1.parents = st.parents := by
  unfold elementEmpty at h
  split at h
  · exact absurd h (by simp)
  · rename_i stE hE
    obtain ⟨e1, e2, e3, _, _, _⟩ := enterScope_shape st stE attrs hE
    split at h
    · exact absurd h (by simp)
    · rename_i stP hP
      have hsp : stP.namespaces = stE.namespaces ∧ stP.lang = stE.lang ∧
          stP.parents = stE.parents := by
        cases hb : stE.in_node with
        | true =>
          simp only [hb, if_true] at hP
          obtain ⟨p1, p2, p3, _⟩ := predicateEmpty_shape stE stP name attrs hP
          exact ⟨p1, p2, p3⟩
        | false =>
          simp only [hb, Bool.false_eq_true, if_false, Except.ok.injEq] at hP
          subst hP
          exact ⟨rfl, rfl, rfl⟩
      simp only [Except.ok.injEq] at h
      subst h
      refine ⟨?_, ?_, ?_⟩
      · simp [leaveScope, hsp.1]; omega
      · simp [leaveScope, hsp.2.1]; omega
      · simp [leaveScope, hsp.2.2, e3]

/-- One-event preservation of the stack-depth invariant. -/
theorem processEvent_inv (ho : HashOrder) (st st1 : XmlParser) (ev : Event)
    (d : Nat) (hInv : StackInv st d) (hok : eventOkB d ev = true)
    (h : processEvent ho st ev = .ok st1) :
    StackInv st1 (eventDepth d ev) := by
  obtain ⟨h1, h2, h3⟩ := hInv
  cases ev with
  | start n attrs =>
    obtain ⟨e1, e2, e3⟩ := elementStart_shape ho st st1 n attrs h
    simp only [eventOkB] at hok
    simp only [eventDepth]
    by_cases hd : d = 0
    · subst hd
      rw [if_pos rfl] at hok
      have hn : n = "rdf:RDF" := by simpa using hok
      rw [if_pos hn] at e3
      exact ⟨by omega, by omega, by omega⟩
    · rw [if_neg hd] at hok
      have hn : n ≠ "rdf:RDF" := by simpa using hok
      rw [if_neg hn] at e3
      exact ⟨by omega, by omega, by omega⟩
  | endElem n =>
    obtain ⟨e1, e2, e3⟩ := elementEnd_shape st st1 n h
    simp only [eventOkB, decide_eq_true_eq] at hok
    simp only [eventDepth]
    exact ⟨by omega, by omega, by omega⟩
  | emptyElem n attrs =>
    obtain ⟨e1, e2, e3⟩ := elementEmpty_shape st st1 n attrs h
    simp only [eventDepth]
    exact ⟨by omega, by omega, by rw [e3]; omega⟩
  | text s =>
    simp only [processEvent, Except.ok.injEq] at h
    subst h
    obtain ⟨e1, e2, e3⟩ := elementText_shape st s
    simp only [eventDepth]
    exact ⟨by rw [e1]; omega, by rw [e2]; omega, by rw [e3]; omega⟩
  | eof =>
    simp only [processEvent, Except.ok.injEq] at h
    subst h
    exact ⟨h1, h2, h3⟩
  | other =>
    simp only [processEvent, Except.ok.injEq] at h
    subst h
    exact ⟨h1, h2, h3⟩

/-- Preservation of the stack-depth invariant along a proper trace. -/
theorem processEvents_inv (ho : HashOrder) (evs : List Event) :
    ∀ (d : Nat) (st st1 : XmlParser), StackInv st d → properFrom d evs = true →
      processEvents ho st evs = .ok st1 → StackInv st1 (depthAfter d evs) := by
  induction evs with
  | nil =>
    intro d st st1 hI _ h
    simp only [processEvents, Except.ok.injEq] at h
    subst h
    exact hI
  | cons ev evs ih =>
    intro d st st1 hI hP h
    simp only [processEvents] at h
    simp only [properFrom, Bool.and_eq_true] at hP
    split at h
    · exact absurd h (by simp)
    · rename_i stm hpe
      have hm := processEvent_inv ho st stm ev d hI hP.1 hpe
      exact ih (eventDepth d ev) stm st1 hm hP.2 h

/-- C2: after the parser processes each event of a proper trace (root element
`rdf:RDF`, nested elements not `rdf:RDF`, balanced ends), the `namespaces` and
`lang` stacks have length `open-element depth + 1` and `parents` has length
`depth - 1` (saturating: the `rdf:RDF` wrapper contributes a scope frame but
no `parents` entry). -/
theorem stacks_track_open_depth (ho : HashOrder) (evs : List Event)
    (st1 : XmlParser) (hP : properFrom 0 evs = true)
    (h : processEvents ho initParser evs = .ok st1) :
    st1.namespaces.length = depthAfter 0 evs + 1 ∧
    st1.lang.length = depthAfter 0 evs + 1 ∧
    st1.parents.length = depthAfter 0 evs - 1 :=
  processEvents_inv ho evs 0 initParser st1 ⟨rfl, rfl, rfl⟩ hP h

/-- A concrete proper trace: the wrapper opens, a node element opens, some
character data arrives. -/
def c2wEvs : List Event :=
  [.start "rdf:RDF" [{ key := "xmlns:ex", value := "http://e/" }],
   .start "ex:a" [], .text "v"]

/-- The state reached by the concrete C2 trace. -/
def c2wSt : XmlParser :=
  match processEvents (fun l => l) initParser c2wEvs with
  | .ok st => st
  | .error _ => initParser

/-- Witness for C2 on the concrete trace (final depth 2: stacks 3, 3, 1). -/
theorem stacks_track_open_depth_witness :
    properFrom 0 c2wEvs = true ∧
    processEvents (fun l => l) initParser c2wEvs = .ok c2wSt ∧
    (c2wSt.namespaces.length = depthAfter 0 c2wEvs + 1 ∧
     c2wSt.lang.length = depthAfter 0 c2wEvs + 1 ∧
     c2wSt.parents.length = depthAfter 0 c2wEvs - 1) :=
  ⟨rfl, rfl, stacks_track_open_depth (fun l => l) c2wEvs c2wSt rfl rfl⟩



-- ---------------------------------------------------------------------------
-- C6: triple emission order of node_start
-- ---------------------------------------------------------------------------

/-- The property entry `node_start`'s attribute loop stores for attribute `a`:
`none` when the attribute is skipped (`xmlns*` keys, subject markers `rdf:about`
/`rdf:ID`/`rdf:nodeID`, `xml:lang`, or a key whose expansion panics), otherwise
the pair `(resolved key, xsd:string literal of the value)`. -/
def attrProp (pm : NsMap) (a : Attr) : Option (Term × Term) :=
  if keyStarts a.key "xmlns" then none
  else
    match expandCurieString pm a.key with
    | .error _ => none
    | .ok k =>
      if k = rdfAbout ∨ k = rdfID ∨ k = rdfNodeID ∨ k = xmlLang then none
      else some (k, factoryLiteralDt a.value xsdString)

/-- The property map built by the attribute loop is the `propInsert`-fold of
the per-attribute entries, in attribute order. -/
theorem collectNodeAttrs_props (pm : NsMap) (attrs : List Attr) :
    ∀ (subj subjOut : Option Term) (props propsOut : List (Term × Term)),
      collectNodeAttrs pm attrs subj props = .ok (subjOut, propsOut) →
      propsOut = (attrs.filterMap (attrProp pm)).foldl
        (fun ps kv => propInsert ps kv.1 kv.2) props := by
  induction attrs with
  | nil =>
    intro subj so props po h
    simp only [collectNodeAttrs, Except.ok.injEq, Prod.mk.injEq] at h
    simp [h.2]
  | cons a rest ih =>
    intro subj so props po h
    simp only [collectNodeAttrs] at h
    by_cases hx : keyStarts a.key "xmlns"
    · simp only [hx, if_true] at h
      simp only [List.filterMap_cons, attrProp, hx, if_true]
      exact ih subj so props po h
    · simp only [hx, Bool.false_eq_true, if_false] at h
      cases hek : expandCurieString pm a.key with
      | error e => rw [hek] at h; exact absurd h (by simp)
      | ok k =>
        simp only [hek] at h
        have hap : attrProp pm a =
            (if k = rdfAbout ∨ k = rdfID ∨ k = rdfNodeID ∨ k = xmlLang
             then none else some (k, factoryLiteralDt a.value xsdString)) := by
          simp only [attrProp, hx, Bool.false_eq_true, if_false, hek]
        by_cases h1 : k = rdfAbout
        · rw [if_pos h1] at h
          rw [List.filterMap_cons, hap, if_pos (Or.inl h1)]
          cases subj with
          | none => exact ih _ so props po h
          | some t => simp at h
        · rw [if_neg h1] at h
          by_cases h2 : k = rdfID
          · rw [if_pos h2] at h
            rw [List.filterMap_cons, hap, if_pos (Or.inr (Or.inl h2))]
            exact ih _ so props po h
          · rw [if_neg h2] at h
            by_cases h3 : k = rdfNodeID
            · rw [if_pos h3] at h
              rw [List.filterMap_cons, hap, if_pos (Or.inr (Or.inr (Or.inl h3)))]
              cases subj with
              | none => exact ih _ so props po h
              | some t => simp at h
            · rw [if_neg h3] at h
              by_cases h4 : k = xmlLang
              · rw [if_pos h4] at h
                rw [List.filterMap_cons, hap,
                    if_pos (Or.inr (Or.inr (Or.inr h4)))]
                exact ih _ so props po h
              · rw [if_neg h4] at h
                rw [List.filterMap_cons, hap,
                    if_neg (fun hc =>
                      hc.elim h1 (fun hc2 =>
                        hc2.elim h2 (fun hc3 => hc3.elim h3 h4)))]
                exact ih _ so _ po h

/-- `HashMap::insert` of a key not yet present appends the entry. -/
theorem propInsert_notMem (props : List (Term × Term)) (k v : Term)
    (hk : k ∉ props.map Prod.fst) :
    propInsert props k v = props ++ [(k, v)] := by
  induction props with
  | nil => rfl
  | cons kv rest ih =>
    simp only [List.map_cons, List.mem_cons] at hk
    push_neg at hk
    simp only [propInsert]
    rw [if_neg (fun hc => hk.1 hc.symm), ih hk.2]
    rfl

/-- Folding `propInsert` over entries with fresh, pairwise-distinct keys is
plain concatenation. -/
theorem foldl_propInsert_append (l : List (Term × Term)) :
    ∀ (props : List (Term × Term)),
      (l.map Prod.fst).Nodup →
      (∀ k, k ∈ l.map Prod.fst → k ∉ props.map Prod.fst) →
      l.foldl (fun ps kv => propInsert ps kv.1 kv.2) props = props ++ l := by
  induction l with
  | nil => intro props _ _; simp
  | cons kv rest ih =>
    intro props hnd hdisj
    simp only [List.map_cons, List.nodup_cons] at hnd
    simp only [List.foldl_cons]
    rw [propInsert_notMem props kv.1 kv.2 (hdisj kv.1 (by simp))]
    rw [ih (props ++ [(kv.1, kv.2)]) hnd.2 ?_]
    · simp
    · intro k hkrest
      simp only [List.map_append, List.mem_append, List.map_cons,
                 List.map_nil, List.mem_singleton]
      rintro (hkp | hkkv)
      · exact hdisj k (by simp [hkrest]) hkp
      · subst hkkv
        exact hnd.1 hkrest

/-- The property map `node_start` ends up with: the per-attribute entries
inserted in attribute order with `HashMap::insert` semantics, so a later entry
whose resolved key is already present overwrites that key's value in place. -/
def propFold (l : List (Term × Term)) : List (Term × Term) :=
  l.foldl (fun ps kv => propInsert ps kv.1 kv.2) []

/-- With pairwise-distinct resolved keys nothing collapses: the property map
is the attribute-order entry list itself. -/
theorem propFold_nodup (l : List (Term × Term))
    (hnd : (l.map Prod.fst).Nodup) : propFold l = l := by
  unfold propFold
  rw [foldl_propInsert_append l [] hnd (by simp)]
  simp

/-- C6 (amended): a successful `node_start` queues, after the previously
queued triples: first the `rdf:type` triple (absent when the element name
resolves to `rdf:Description`); then one triple per **entry of the property
hash map** in an unspecified iteration order — the map holds the non-reserved
attributes keyed by resolved IRI, inserted in attribute order with a later
value overwriting an earlier one under the same resolved key, and when the
resolved keys are pairwise distinct it is exactly one entry per remaining
attribute (first conjunct); and finally, when the node is nested, the
parent-linking triple `(grandparent subject, parent predicate, this node)`. -/
theorem node_start_emission_structure (ho : HashOrder) (st st1 : XmlParser)
    (name : String) (attrs : List Attr) (pm : NsMap)
    (hperm : ∀ l : List (Term × Term), (ho l).Perm l)
    (hns : topNs st = .ok pm)
    (h : nodeStartCore ho st name attrs = .ok st1) :
    (((attrs.filterMap (attrProp pm)).map Prod.fst).Nodup →
       propFold (attrs.filterMap (attrProp pm))
         = attrs.filterMap (attrProp pm)) ∧
    ∃ s ty mid,
      expandCurieString pm name = .ok ty ∧
      mid.Perm ((propFold (attrs.filterMap (attrProp pm))).map
        (fun kv => (s, kv.1, kv.2))) ∧
      ((st.parents = [] ∧
          st1.triples = st.triples
            ++ (if ty = rdfDescription then [] else [(s, rdfType, ty)]) ++ mid) ∨
       (∃ gp gs, st.parents.get? 0 = some gp ∧ st.parents.get? 1 = some gs ∧
          st1.triples = st.triples
            ++ (if ty = rdfDescription then [] else [(s, rdfType, ty)])
            ++ mid ++ [(gs, gp, s)])) := by
  refine ⟨fun hnd => propFold_nodup _ hnd, ?_⟩
  unfold nodeStartCore at h
  split at h
  · exact absurd h (by simp)
  · rename_i pm1 hpm1
    rw [hns] at hpm1
    simp only [Except.ok.injEq] at hpm1
    subst hpm1
    split at h
    · exact absurd h (by simp)
    · rename_i sp hsp
      have hpo : sp.2 = propFold (attrs.filterMap (attrProp pm)) :=
        collectNodeAttrs_props pm attrs none sp.1 [] sp.2 hsp
      split at h
      · exact absurd h (by simp)
      · rename_i ty hty
        dsimp only at h
        refine ⟨sp.1.getD (factoryBnode ("n" ++ toString st.bnodes)), ty,
          (ho sp.2).map
            (fun kv => (sp.1.getD (factoryBnode ("n" ++ toString st.bnodes)),
                        kv.1, kv.2)),
          hty, ?_, ?_⟩
        · rw [← hpo]
          exact (hperm sp.2).map _
        · split at h
          · rename_i hlen
            split at h
            · rename_i gs gp hg2 hg1
              simp only [Except.ok.injEq] at h
              subst h
              simp only [List.get?_cons_succ] at hg1 hg2
              exact Or.inr ⟨gp, gs, hg1, hg2, by simp⟩
            · exact absurd h (by simp)
          · rename_i hlen
            have hnil : st.parents = [] := by
              have : st.parents.length = 0 := by
                simp only [List.length_cons] at hlen
                omega
              exact List.eq_nil_of_length_eq_zero this
            simp only [Except.ok.injEq] at h
            subst h
            exact Or.inl ⟨hnil, by simp⟩

/-- Node-start state with only the `ex` prefix bound (used for C6). -/
def c6st : XmlParser :=
  { initParser with namespaces := [("ex", "http://e/") :: pmDefault] }

/-- Two property attributes in document order. -/
def c6attrs : List Attr := [{ key := "ex:a", value := "1" }, { key := "ex:b", value := "2" }]

/-- The property entries of `c6attrs` in attribute-iteration order. -/
def c6props : List (Term × Term) :=
  c6attrs.filterMap (attrProp (("ex", "http://e/") :: pmDefault))

/-- The state `node_start` produces on `c6attrs` when the hash map happens to
iterate in reverse insertion order (an admissible iteration order). -/
def c6res : XmlParser :=
  match nodeStartCore List.reverse c6st "ex:T" c6attrs with
  | .ok st => st
  | .error _ => c6st

/-- Node-start state with two prefixes bound to the same namespace
(used for the duplicate-resolved-key part of the C6 counterexample). -/
def c6dSt : XmlParser :=
  { initParser with
    namespaces := [("e1", "http://e/") :: ("e2", "http://e/") :: pmDefault] }

/-- Two attributes with distinct raw keys whose resolved keys coincide
(`e1:a` and `e2:a` with both prefixes bound to `http://e/`). -/
def c6dAttrs : List Attr :=
  [{ key := "e1:a", value := "1" }, { key := "e2:a", value := "2" }]

/-- The result of `node_start` on the duplicate-resolved-key element. -/
def c6dRes : XmlParser :=
  match nodeStartCore (fun l => l) c6dSt "e1:T" c6dAttrs with
  | .ok st => st
  | .error _ => c6dSt

/-- C6 counterexample, refuting two parts of the claim.  Order: reverse
iteration is an admissible `HashMap` order (a permutation of the entries), and
under it `node_start` queues the property triples of
`<ex:T ex:a="1" ex:b="2">` as `ex:b`, `ex:a` — not attribute-iteration order.
Count: on `<e1:T e1:a="1" e2:a="2">` with `e1` and `e2` bound to the same
namespace, the two remaining attributes share one resolved key, so the
`HashMap` collapses them (xml.rs 287) and `node_start` emits a single property
triple carrying the later value `"2"` — not one triple per remaining
attribute. -/
theorem node_start_attr_order_cex :
    c6props.reverse.Perm c6props ∧
    nodeStartCore List.reverse c6st "ex:T" c6attrs = .ok c6res ∧
    c6res.triples ≠
      [(Term.bnode "n0", rdfType, Term.iri "http://e/T")]
        ++ c6props.map (fun kv => (Term.bnode "n0", kv.1, kv.2)) ∧
    nodeStartCore (fun l => l) c6dSt "e1:T" c6dAttrs = .ok c6dRes ∧
    (c6dAttrs.filterMap
      (attrProp (("e1", "http://e/") :: ("e2", "http://e/") :: pmDefault))).length
      = 2 ∧
    c6dRes.triples =
      [(Term.bnode "n0", rdfType, Term.iri "http://e/T"),
       (Term.bnode "n0", Term.iri "http://e/a",
        Term.literal "2" (.typed xsdStringIri))] ∧
    c6dRes.triples ≠
      [(Term.bnode "n0", rdfType, Term.iri "http://e/T")]
        ++ (c6dAttrs.filterMap
            (attrProp (("e1", "http://e/") :: ("e2", "http://e/") :: pmDefault))).map
          (fun kv => (Term.bnode "n0", kv.1, kv.2)) :=
  ⟨by decide, rfl, by decide, rfl, by decide, by decide, by decide⟩

/-- The state `node_start` produces on `c6attrs` under the identity iteration
order. -/
def c6wRes : XmlParser :=
  match nodeStartCore (fun l => l) c6st "ex:T" c6attrs with
  | .ok st => st
  | .error _ => c6st

/-- Witness for the amended C6 on a concrete node element. -/
theorem node_start_emission_structure_witness :
    (∀ l : List (Term × Term), ((fun l => l) l).Perm l) ∧
    topNs c6st = .ok (("ex", "http://e/") :: pmDefault) ∧
    nodeStartCore (fun l => l) c6st "ex:T" c6attrs = .ok c6wRes ∧
    ((((c6attrs.filterMap (attrProp (("ex", "http://e/") :: pmDefault))).map
          Prod.fst).Nodup →
        propFold (c6attrs.filterMap (attrProp (("ex", "http://e/") :: pmDefault)))
          = c6attrs.filterMap (attrProp (("ex", "http://e/") :: pmDefault))) ∧
     ∃ s ty mid,
      expandCurieString (("ex", "http://e/") :: pmDefault) "ex:T" = .ok ty ∧
      mid.Perm ((propFold (c6attrs.filterMap
          (attrProp (("ex", "http://e/") :: pmDefault)))).map
            (fun kv => (s, kv.1, kv.2))) ∧
      ((c6st.parents = [] ∧
          c6wRes.triples = c6st.triples
            ++ (if ty = rdfDescription then [] else [(s, rdfType, ty)]) ++ mid) ∨
       (∃ gp gs, c6st.parents.get? 0 = some gp ∧ c6st.parents.get? 1 = some gs ∧
          c6wRes.triples = c6st.triples
            ++ (if ty = rdfDescription then [] else [(s, rdfType, ty)])
            ++ mid ++ [(gs, gp, s)]))) :=
  ⟨fun l => List.Perm.refl l, rfl, rfl,
   node_start_emission_structure (fun l => l) c6st c6wRes "ex:T" c6attrs
     (("ex", "http://e/") :: pmDefault) (fun l => List.Perm.refl l) rfl rfl⟩

end Sophia
